import Mathlib

/-!
Verification development for the Polymarket paper-trading bot
(`crypto5m_bot.py` and `polymarketGPT.py`).

All monetary quantities are modelled as rationals.  Python `float` values
arriving from the order-book provider are modelled as already-parsed
rationals where the numeric behaviour is at stake, and as an explicit
"JSON value" type (`JVal`) where the parsing / exception behaviour of the
accessors is itself the property under scrutiny.  Random draws of the
execution simulator (slippage, fill ratio, trade size) are passed as
explicit arguments, matching the injected-random-source design note of the
specification.
-/

namespace Crypto5m

/-- Strategy parameter set of `crypto5m_bot.py` (`DEFAULT_PARAMS` keys that
the modelled functions read). -/
structure Params where
  clob_fee_pct : ℚ
  gas_merge_usd : ℚ
  swap_spread_pct : ℚ
  buffer_bps : ℚ
  arb_threshold_bps : ℚ
  snipe_threshold : ℚ
  mispriced_ratio : ℚ
  mispriced_min_size : ℚ
  min_trade_usd : ℚ
  max_trade_usd : ℚ
  slippage_pct : ℚ
  last_15s_window : ℚ
deriving DecidableEq

/-- `total_fees` of `crypto5m_bot.py`: total cost fraction for a completed
arb round-trip; the gas term is `0` when the trade size is not positive. -/
def total_fees (trade_size_usd : ℚ) (p : Params) : ℚ :=
  let clob := p.clob_fee_pct * 2
  let gas := if trade_size_usd > 0 then p.gas_merge_usd / trade_size_usd else 0
  let swap := p.swap_spread_pct * 2
  let buf := p.buffer_bps / 10000
  clob + gas + swap + buf

/-- `compute_arb_edge` of `crypto5m_bot.py`: returns `(raw_edge, net_edge)`. -/
def compute_arb_edge (yes_cost no_cost trade_size : ℚ) (p : Params) : ℚ × ℚ :=
  let raw := 1 - (yes_cost + no_cost)
  let fees := total_fees trade_size p
  (raw, raw - fees)

/-- A raw JSON scalar as found in an order-book entry: either a value that
`float(...)` parses to a rational, or an unparseable value. -/
inductive JVal where
  | num (q : ℚ)
  | bad
deriving DecidableEq

/-- One raw order-book entry.  `none` in a field models an absent key. -/
structure RawEntry where
  price : Option JVal := none
  size : Option JVal := none
deriving DecidableEq

/-- A raw order book; `none` in a field models a dict without that key
(`ob.get("asks", [])` then yields `[]`). -/
structure Book where
  asks : Option (List RawEntry) := none
  bids : Option (List RawEntry) := none
deriving DecidableEq

/-- `float(a[key])` on an optional field: `none` is a `KeyError`, `bad` a
`ValueError`; both surface as a parse failure. -/
def parseField : Option JVal → Option ℚ
  | some (.num q) => some q
  | _ => none

/-- Evaluate `(float(a["price"]) for a in entries)` to completion: the
first failing entry aborts the whole generator (the exception is caught by
the caller). -/
def parseAll : List RawEntry → Option (List ℚ)
  | [] => some []
  | a :: rest =>
    match parseField a.price, parseAll rest with
    | some q, some qs => some (q :: qs)
    | _, _ => none

/-- Python `min` over a nonempty list (left fold of the binary minimum). -/
def listMin : List ℚ → Option ℚ
  | [] => none
  | x :: xs => some (xs.foldl min x)

/-- Python `max` over a nonempty list (left fold of the binary maximum). -/
def listMax : List ℚ → Option ℚ
  | [] => none
  | x :: xs => some (xs.foldl max x)

/-- `best_ask_price` of `crypto5m_bot.py`: minimum ask price; any missing
book, missing/empty ask list or unparseable entry yields `none` (the
function body is wrapped in a catch-all `except`). -/
def best_ask_price (ob : Option Book) : Option ℚ :=
  match ob with
  | none => none
  | some b =>
    let asks := b.asks.getD []
    if asks.isEmpty then none
    else
      match parseAll asks with
      | none => none
      | some ps => listMin ps

/-- `best_bid_price` of `crypto5m_bot.py`: maximum bid price, same error
behaviour as `best_ask_price`. -/
def best_bid_price (ob : Option Book) : Option ℚ :=
  match ob with
  | none => none
  | some b =>
    let bids := b.bids.getD []
    if bids.isEmpty then none
    else
      match parseAll bids with
      | none => none
      | some ps => listMax ps

/-- `effective_buy_price` of `crypto5m_bot.py` (alias of the best ask). -/
def effective_buy_price (ob : Option Book) : Option ℚ :=
  best_ask_price ob

/-- The opportunity record emitted by `check_arb_strategy`. -/
structure ArbOpp where
  yes_price : ℚ
  no_price : ℚ
  total : ℚ
  raw_edge : ℚ
  net_edge : ℚ
deriving DecidableEq

/-- `check_arb_strategy` of `crypto5m_bot.py`. -/
def check_arb_strategy (yes_ob no_ob : Option Book) (p : Params) :
    Option ArbOpp :=
  match effective_buy_price yes_ob, effective_buy_price no_ob with
  | some yes_ask, some no_ask =>
    if yes_ask ≤ 0 ∨ no_ask ≤ 0 then none
    else
      let trade_size := (p.min_trade_usd + p.max_trade_usd) / 2
      let edges := compute_arb_edge yes_ask no_ask trade_size p
      let threshold := p.arb_threshold_bps / 10000
      if edges.2 < threshold then none
      else some {
        yes_price := yes_ask
        no_price := no_ask
        total := yes_ask + no_ask
        raw_edge := edges.1
        net_edge := edges.2 }
  | _, _ => none

/-- Which side of the market a snipe candidate buys. -/
inductive Token where
  | yes
  | no
deriving DecidableEq

/-- A snipe candidate (`token`, `price`, `edge`, `confidence`). -/
structure SnipeCand where
  token : Token
  price : ℚ
  edge : ℚ
  confidence : ℚ
deriving DecidableEq

/-- The opportunity record emitted by `check_snipe_strategy`. -/
structure SnipeOpp where
  token : Token
  price : ℚ
  edge : ℚ
  time_left : ℚ
deriving DecidableEq

/-- The single-leg fee fraction computed inside `check_snipe_strategy`:
`clob_fee_pct + gas_merge_usd / max_trade_usd + swap_spread_pct +
buffer_bps / 10000`. -/
def snipe_fees (p : Params) : ℚ :=
  p.clob_fee_pct + p.gas_merge_usd / p.max_trade_usd + p.swap_spread_pct +
    p.buffer_bps / 10000

/-- Python's `max(candidates, key=...)`: keep the first element whose key is
maximal (a later element replaces the current best only when strictly
greater). -/
def pickMaxConfidence (c : SnipeCand) (cs : List SnipeCand) : SnipeCand :=
  cs.foldl (fun best x => if x.confidence > best.confidence then x else best) c

/-- `check_snipe_strategy` of `crypto5m_bot.py`. -/
def check_snipe_strategy (yes_ob no_ob : Option Book)
    (time_left : ℚ) (p : Params) : Option SnipeOpp :=
  if time_left > p.last_15s_window then none
  else
    let yes_ask := effective_buy_price yes_ob
    let no_ask := effective_buy_price no_ob
    let fees := snipe_fees p
    let yesCands : List SnipeCand :=
      match yes_ask with
      | some ya =>
        if ya > 0 ∧ 1 - ya - fees ≥ p.snipe_threshold then
          [⟨Token.yes, ya, 1 - ya - fees, ya⟩]
        else []
      | none => []
    let noCands : List SnipeCand :=
      match no_ask with
      | some na =>
        if na > 0 ∧ 1 - na - fees ≥ p.snipe_threshold then
          [⟨Token.no, na, 1 - na - fees, na⟩]
        else []
      | none => []
    match yesCands ++ noCands with
    | [] => none
    | c :: cs =>
      let best := pickMaxConfidence c cs
      some ⟨best.token, best.price, best.edge, time_left⟩

/-- Python dict insertion: add `s` to the binding of `p` if present, keeping
its position, else append `(p, s)` at the end. -/
def addVol : List (ℚ × ℚ) → ℚ → ℚ → List (ℚ × ℚ)
  | [], p, s => [(p, s)]
  | (q, t) :: rest, p, s =>
    if p = q then (q, t + s) :: rest else (q, t) :: addVol rest p s

/-- The `price_vol` dict of `find_mispriced_orders`: keys are distinct
prices in first-occurrence order, values the accumulated sizes. -/
def price_vol (entries : List (ℚ × ℚ)) : List (ℚ × ℚ) :=
  entries.foldl (fun acc e => addVol acc e.1 e.2) []

/-- Python's `max(price_vol, key=price_vol.get)`: the first key whose value
is maximal, in dict (insertion) order. -/
def maxByVol : List (ℚ × ℚ) → Option ℚ
  | [] => none
  | pv :: rest =>
    some ((rest.foldl (fun best x => if x.2 > best.2 then x else best) pv).1)

/-- The cluster price computed inside `find_mispriced_orders`. -/
def cluster_of (entries : List (ℚ × ℚ)) : Option ℚ :=
  maxByVol (price_vol entries)

/-- One flagged entry of `find_mispriced_orders`. -/
structure Mispriced where
  price : ℚ
  size : ℚ
  cluster_price : ℚ
  discount_pct : ℚ
  est_profit_per_share : ℚ
deriving DecidableEq

/-- `find_mispriced_orders` of `crypto5m_bot.py`, over already-parsed
`(price, size)` entries. -/
def find_mispriced_orders (entries : List (ℚ × ℚ))
    (ratio_threshold min_size : ℚ) : List Mispriced :=
  if entries.length < 2 then []
  else
    match cluster_of entries with
    | none => []
    | some cp =>
      let flagged := entries.filterMap (fun e =>
        if e.2 < min_size then none
        else if e.1 ≤ cp * ratio_threshold ∧ e.1 < cp - 1/10 then
          some { price := e.1
                 size := e.2
                 cluster_price := cp
                 discount_pct := (cp - e.1) / cp * 100
                 est_profit_per_share := cp - e.1 }
        else none)
      flagged.insertionSort (fun a b => a.price ≤ b.price)

/-- An opportunity handed to `simulate_trade` (the strategy-specific fields
it reads). -/
inductive Opp where
  | arb (yes_price no_price net_edge : ℚ)
  | snipe (price edge : ℚ) (token : Token)
  | mispriced (price size cluster_price discount_pct : ℚ) (token : Token)
deriving DecidableEq

/-- A simulated trade as returned by `simulate_trade`. -/
inductive SimResult where
  | rejected (reason : String)
  | filledArb (size_usd shares cost_per gross_pnl net_pnl : ℚ)
  | filledSnipe (size_usd shares cost gross_pnl net_pnl : ℚ)
  | filledMispriced (size_usd shares buy_price sell_price gross_pnl net_pnl : ℚ)
  | unknown
deriving DecidableEq

/-- The `status` field of a simulated trade. -/
inductive Status where
  | filled
  | rejected
  | unknown
deriving DecidableEq

/-- Status accessor on `SimResult`. -/
def SimResult.status : SimResult → Status
  | .rejected _ => .rejected
  | .filledArb _ _ _ _ _ => .filled
  | .filledSnipe _ _ _ _ _ => .filled
  | .filledMispriced _ _ _ _ _ _ => .filled
  | .unknown => .unknown

/-- Gross P&L accessor (0 when the trade carries none). -/
def SimResult.grossPnl : SimResult → ℚ
  | .filledArb _ _ _ g _ => g
  | .filledSnipe _ _ _ g _ => g
  | .filledMispriced _ _ _ _ g _ => g
  | _ => 0

/-- Net P&L accessor (0 when the trade carries none). -/
def SimResult.netPnl : SimResult → ℚ
  | .filledArb _ _ _ _ n => n
  | .filledSnipe _ _ _ _ n => n
  | .filledMispriced _ _ _ _ _ n => n
  | _ => 0

/-- `simulate_trade` of `crypto5m_bot.py` with the three random draws
(slippage, fill ratio, trade size) passed explicitly. -/
def simulate_trade (opp : Opp) (p : Params) (slip fill size : ℚ) : SimResult :=
  match opp with
  | .arb yes_price no_price _ =>
    let cost_per := yes_price + no_price + slip
    if cost_per ≥ 1 then .rejected "slippage killed edge"
    else
      let shares := (size * fill) / cost_per
      let gross := shares * (1 - cost_per)
      let net := gross - p.gas_merge_usd
      .filledArb (size * fill) shares cost_per gross net
  | .snipe price _ _ =>
    let cost := price + slip
    if cost ≥ 1 then .rejected "cost >= 1.0"
    else
      let shares := (size * fill) / cost
      let gross := shares * (1 - cost)
      let net := gross - p.gas_merge_usd / 2
      .filledSnipe (size * fill) shares cost gross net
  | .mispriced price osize cluster_price _ _ =>
    let cost := price + slip
    let avail := min (size * fill / cost) osize
    let gross := avail * (cluster_price - cost)
    let net := gross - p.gas_merge_usd / 4
    .filledMispriced (avail * cost) avail cost cluster_price gross net

/-- Per-symbol market metadata, as cached by `run_scan` (the fields the
rotation logic reads). -/
structure Md where
  yes_token : ℕ
  no_token : ℕ
  closed : Bool
deriving DecidableEq

/-- The four tracked symbols (`CRYPTO_MARKETS`). -/
inductive Sym where
  | btc
  | eth
  | sol
  | xrp
deriving DecidableEq

/-- All tracked symbols, in iteration order. -/
def allSyms : List Sym := [.btc, .eth, .sol, .xrp]

/-- Cached order books for one symbol (`{"yes": ob, "no": ob}`). -/
structure ObPair where
  yes : Option Book
  no : Option Book
deriving DecidableEq

/-- The external market provider: `fetch_5m_market` and `fetch_orderbook`. -/
structure Provider where
  fetchMd : Sym → ℤ → Option Md
  fetchOb : ℕ → Option Book

/-- The session-state fields touched by the rotation part of `run_scan`. -/
structure BotState where
  current_period_start : ℤ
  period_transitions : ℕ
  market_data : Sym → Option Md
  orderbooks : Sym → Option ObPair

/-- `refresh_market_data` of `crypto5m_bot.py`: refetch metadata for every
symbol (marking the stale snapshot closed when the fetch fails), then
refetch order books for every symbol that has metadata. -/
def refresh_market_data (prov : Provider) (period_start : ℤ)
    (st : BotState) : BotState :=
  let md' : Sym → Option Md := fun sym =>
    match prov.fetchMd sym period_start with
    | some m => some m
    | none =>
      match st.market_data sym with
      | some old => some { old with closed := true }
      | none => none
  let obs' : Sym → Option ObPair := fun sym =>
    match md' sym with
    | some m => some ⟨prov.fetchOb m.yes_token, prov.fetchOb m.no_token⟩
    | none => st.orderbooks sym
  { st with market_data := md', orderbooks := obs' }

/-- `refresh_orderbooks_only` of `crypto5m_bot.py`: refetch order books for
symbols whose metadata is cached and not closed. -/
def refresh_orderbooks_only (prov : Provider) (st : BotState) : BotState :=
  let obs' : Sym → Option ObPair := fun sym =>
    match st.market_data sym with
    | some m =>
      if m.closed then st.orderbooks sym
      else some ⟨prov.fetchOb m.yes_token, prov.fetchOb m.no_token⟩
    | none => st.orderbooks sym
  { st with orderbooks := obs' }

/-- The period-rotation prefix of `run_scan`: on a new floor value, bump the
transition counter, clear both caches wholesale and refetch everything;
otherwise refetch metadata only when the cache is empty, else only the
order books. -/
def run_scan_rotation (prov : Provider) (now_start : ℤ)
    (st : BotState) : BotState :=
  if now_start ≠ st.current_period_start then
    let cleared : BotState :=
      { current_period_start := now_start
        period_transitions := st.period_transitions + 1
        market_data := fun _ => none
        orderbooks := fun _ => none }
    refresh_market_data prov now_start cleared
  else
    if allSyms.all (fun sym => (st.market_data sym).isNone) then
      refresh_market_data prov now_start st
    else
      refresh_orderbooks_only prov st

end Crypto5m

namespace PolyGPT

/-- One raw order-book entry of `polymarketGPT.py`: the accessors read
`o.get("price", o.get("p", 0))` and `o.get("size", o.get("s", 0))`. -/
structure RawEntry2 where
  price : Option Crypto5m.JVal := none
  p : Option Crypto5m.JVal := none
  size : Option Crypto5m.JVal := none
  s : Option Crypto5m.JVal := none
deriving DecidableEq

/-- A raw order book of `polymarketGPT.py`. -/
structure Book2 where
  asks : Option (List RawEntry2) := none
  bids : Option (List RawEntry2) := none
deriving DecidableEq

/-- `float(o.get(k, o.get(k2, 0)))` under the per-entry `try`: a missing
pair of keys defaults to `0`, an unparseable value fails (`none`). -/
def getField2 (primary fallback : Option Crypto5m.JVal) : Option ℚ :=
  match primary with
  | some (.num q) => some q
  | some .bad => none
  | none =>
    match fallback with
    | some (.num q) => some q
    | some .bad => none
    | none => some 0

/-- `best_ask` of `polymarketGPT.py`: minimum price over entries whose
price and size both parse and are positive; malformed entries are skipped
individually. -/
def best_ask (ob : Option Book2) : Option ℚ :=
  match ob with
  | none => none
  | some b =>
    let prices := (b.asks.getD []).filterMap (fun o =>
      match getField2 o.price o.p, getField2 o.size o.s with
      | some pv, some sv => if pv > 0 ∧ sv > 0 then some pv else none
      | _, _ => none)
    Crypto5m.listMin prices

/-- `best_bid` of `polymarketGPT.py`: maximum price over well-formed,
positive bid entries. -/
def best_bid (ob : Option Book2) : Option ℚ :=
  match ob with
  | none => none
  | some b =>
    let prices := (b.bids.getD []).filterMap (fun o =>
      match getField2 o.price o.p, getField2 o.size o.s with
      | some pv, some sv => if pv > 0 ∧ sv > 0 then some pv else none
      | _, _ => none)
    Crypto5m.listMax prices

/-- `compute_edge` of `polymarketGPT.py`: returns `(raw_edge, net_edge)`.
Note that only the CLOB fee is doubled; the swap spread is charged once. -/
def compute_edge (buy_yes buy_no clob_fee gas_usd swap_spread buffer_bps
    trade_size_usd : ℚ) : ℚ × ℚ :=
  let long_cost := buy_yes + buy_no
  let raw_edge := 1 - long_cost
  let fees_clob := clob_fee * 2
  let gas_frac := if trade_size_usd > 0 then gas_usd / trade_size_usd else 0
  let buffer := buffer_bps / 10000
  (raw_edge, raw_edge - fees_clob - gas_frac - swap_spread - buffer)

/-- Execution-simulation parameters of `polymarketGPT.py`. -/
structure EParams where
  slippage_pct : ℚ
  min_trade_usd : ℚ
  max_trade_usd : ℚ
  gas_merge_usd : ℚ
deriving DecidableEq

/-- A filled simulated execution of `polymarketGPT.py`. -/
structure ExecFill where
  trade_size_usd : ℚ
  shares : ℚ
  cost_per_set : ℚ
  gross_pnl : ℚ
  net_pnl : ℚ
deriving DecidableEq

/-- `simulate_execution` of `polymarketGPT.py` with the random draws passed
explicitly; the rejection path returns `none`. -/
def simulate_execution (buy_yes buy_no : ℚ) (p : EParams)
    (slip fill size : ℚ) : Option ExecFill :=
  let cost_per_share := buy_yes + buy_no + slip
  if cost_per_share ≥ 1 then none
  else
    let shares := (size * fill) / cost_per_share
    let gross := shares * (1 - cost_per_share)
    let net := gross - p.gas_merge_usd
    some {
      trade_size_usd := size * fill
      shares := shares
      cost_per_set := cost_per_share
      gross_pnl := gross
      net_pnl := net }

end PolyGPT

namespace Crypto5m

/-! Concrete fixtures used by witnesses and counterexamples. -/

/-- The fee/threshold parameters of the end-to-end scenario, with
`min_trade_usd = max_trade_usd = 1000` so that the representative trade
size of the arbitrage detector is exactly the scenario's 1000 USD. -/
def paramsMid1000 : Params where
  clob_fee_pct := 75 / 100000
  gas_merge_usd := 1 / 2
  swap_spread_pct := 2 / 10000
  buffer_bps := 10
  arb_threshold_bps := 20
  snipe_threshold := 5 / 100
  mispriced_ratio := 1 / 2
  mispriced_min_size := 10
  min_trade_usd := 1000
  max_trade_usd := 1000
  slippage_pct := 3 / 10
  last_15s_window := 15

/-- Same parameters with the arbitrage threshold raised to 266 bps, the
exact net edge of the 0.48/0.49 scenario (boundary case). -/
def paramsBoundary266 : Params :=
  { paramsMid1000 with arb_threshold_bps := 266 }

/-- Same parameters with a 2% slippage bound. -/
def paramsSlip2 : Params :=
  { paramsMid1000 with slippage_pct := 2 }

/-- A YES order book quoting a single ask at 0.48. -/
def bookY48 : Book where
  asks := some [{ price := some (.num (48 / 100)), size := some (.num 100) }]
  bids := some []

/-- A NO order book quoting a single ask at 0.49. -/
def bookN49 : Book where
  asks := some [{ price := some (.num (49 / 100)), size := some (.num 100) }]
  bids := some []

/-- A sample market-metadata snapshot. -/
def md0 : Md := ⟨1, 2, false⟩

/-- A provider whose metadata fetch always succeeds with `md0` and whose
order-book fetch always fails. -/
def provAll : Provider := ⟨fun _ _ => some md0, fun _ => none⟩

/-- A state in the middle of period 300 with empty caches. -/
def stEmpty : BotState := ⟨300, 5, fun _ => none, fun _ => none⟩

/-- A state in the middle of period 300 with a cached BTC snapshot. -/
def stCached : BotState :=
  ⟨300, 5, fun sym => if sym = Sym.btc then some md0 else none,
    fun _ => none⟩

/-- Total resting size of the entries at price level `q` (also serves as
assoc-list lookup on the grouped `price_vol` list). -/
def assocVol (l : List (ℚ × ℚ)) (q : ℚ) : ℚ :=
  ((l.filter (fun e => e.1 = q)).map Prod.snd).sum

/-- The distinct elements of a list that are not in `seen`, in order of
first occurrence (the key order of a Python dict built by insertion). -/
def dfAux (seen : List ℚ) : List ℚ → List ℚ
  | [] => []
  | p :: ps => if p ∈ seen then dfAux seen ps else p :: dfAux (p :: seen) ps

/-- Index of the first occurrence of `a` in `l`. -/
def firstIdx : List ℚ → ℚ → ℕ
  | [], _ => 0
  | x :: xs, a => if a = x then 0 else firstIdx xs a + 1

/-- The ask list of the spec's first mispriced example: cluster at 0.97,
outlier at 0.04. -/
def clusterAsks : List (ℚ × ℚ) := [(97/100, 100), (97/100, 50), (1/25, 20)]

/-- The ask list of the spec's low-cluster guard example. -/
def lowClusterAsks : List (ℚ × ℚ) :=
  [(8/100, 100), (8/100, 50), (39/1000, 20)]

/-- An ask list with two price levels tied on total size (0.5 and 0.3,
each with volume 100) plus a small flagged outlier. -/
def tieAsks : List (ℚ × ℚ) := [(1/2, 100), (3/10, 100), (1/25, 20)]

/-- C3, counterexample: at the spec's own fee parameters (per-leg CLOB fee
0.00075, gas 0.50, swap spread 0.0002, buffer 10 bps, size 1000) the fee
fraction charged by `compute_edge` of `polymarketGPT.py` (its raw edge
minus its net edge) is 0.0032, while the claimed two-sided formula
`2×clob + gas/size + 2×swap + buffer/10000` gives 0.0034: the claim that
both implementations compute that formula is false. -/
theorem compute_edge_fee_differs_from_claimed_formula :
    (PolyGPT.compute_edge (48/100) (49/100) (75/100000) (1/2) (2/10000) 10
        1000).1 -
      (PolyGPT.compute_edge (48/100) (49/100) (75/100000) (1/2) (2/10000) 10
        1000).2 = 32/10000 ∧
    2 * ((75:ℚ)/100000) + (1/2)/1000 + 2 * ((2:ℚ)/10000) + 10/10000
      = 34/10000 ∧
    (32:ℚ)/10000 ≠ 34/10000 := by
  refine ⟨?_, by norm_num, by norm_num⟩
  norm_num [PolyGPT.compute_edge]

/-- C3, amended: `total_fees` of `crypto5m_bot.py` (equivalently, the fee
fraction subtracted by `compute_arb_edge`) equals
`2×clob_fee + gas/trade_size + 2×swap_spread + buffer_bps/10000` with the
gas term zero for non-positive trade sizes, while `compute_edge` of
`polymarketGPT.py` charges the swap spread once, not twice:
its fee fraction is `2×clob_fee + gas/trade_size + swap_spread +
buffer_bps/10000`, with the same zero-gas fallback. -/
theorem fee_formula_both_implementations (ya na ts b1 b2 cf g sw bb ts2 : ℚ)
    (p : Params) :
    total_fees ts p =
      2 * p.clob_fee_pct + (if 0 < ts then p.gas_merge_usd / ts else 0) +
        2 * p.swap_spread_pct + p.buffer_bps / 10000 ∧
    (compute_arb_edge ya na ts p).1 - (compute_arb_edge ya na ts p).2 =
      total_fees ts p ∧
    (PolyGPT.compute_edge b1 b2 cf g sw bb ts2).1 -
        (PolyGPT.compute_edge b1 b2 cf g sw bb ts2).2 =
      2 * cf + (if 0 < ts2 then g / ts2 else 0) + sw + bb / 10000 := by
  refine ⟨?_, ?_, ?_⟩
  · simp only [total_fees, gt_iff_lt]
    ring
  · simp only [compute_arb_edge]
    ring
  · simp only [PolyGPT.compute_edge, gt_iff_lt]
    ring

/-- C2, counterexample: in the end-to-end scenario (YES ask 0.48, NO ask
0.49, clob fee 0.00075, gas 0.50, swap 0.0002, buffer 10 bps, size 1000)
the total fee fraction is 0.0034, not approximately 0.00245 (it misses by
0.00095, more than 38% of the claimed value), and the net edge is 0.0266,
not approximately 0.02755. -/
theorem scenario_fee_not_00245 :
    total_fees 1000 paramsMid1000 = 34/10000 ∧
    ¬(|(34:ℚ)/10000 - 245/100000| ≤ 1/2000) ∧
    (compute_arb_edge (48/100) (49/100) 1000 paramsMid1000).2 = 266/10000 ∧
    ¬(|(266:ℚ)/10000 - 2755/100000| ≤ 1/2000) := by
  refine ⟨by norm_num [total_fees, paramsMid1000], ?_, ?_, ?_⟩
  · rw [abs_le]
    norm_num
  · norm_num [compute_arb_edge, total_fees, paramsMid1000]
  · rw [abs_le]
    norm_num

/-- C2, amended: in the end-to-end scenario the total fee fraction is
exactly `0.00075×2 + 0.5/1000 + 0.0002×2 + 0.001 = 0.0034`, the net edge
is exactly `1 − 0.97 − 0.0034 = 0.0266` (2.66%), and with
`arb_threshold_bps = 20` the arbitrage opportunity is emitted. -/
theorem scenario_fees_edge_and_emission :
    total_fees 1000 paramsMid1000 = 34/10000 ∧
    (75:ℚ)/100000 * 2 + (1/2)/1000 + (2:ℚ)/10000 * 2 + 10/10000 = 34/10000 ∧
    compute_arb_edge (48/100) (49/100) 1000 paramsMid1000
      = (3/100, 266/10000) ∧
    paramsMid1000.arb_threshold_bps / 10000 ≤ (266:ℚ)/10000 ∧
    (check_arb_strategy (some bookY48) (some bookN49) paramsMid1000).isSome
      = true := by
  refine ⟨by norm_num [total_fees, paramsMid1000], by norm_num, ?_, ?_, ?_⟩
  · norm_num [compute_arb_edge, total_fees, paramsMid1000, Prod.ext_iff]
  · norm_num [paramsMid1000]
  · norm_num [check_arb_strategy, effective_buy_price, best_ask_price,
      bookY48, bookN49, parseAll, parseField, listMin, compute_arb_edge,
      total_fees, paramsMid1000]

/-- C6: for any pair of order books whose best asks exist and are positive,
`check_arb_strategy` emits an opportunity if and only if the net edge (at
the representative trade size, the midpoint of the configured min/max) is
at least `arb_threshold_bps / 10000`; the comparison is an inclusive ≥. -/
theorem arb_emission_iff_net_edge_ge_threshold
    (yes_ob no_ob : Option Book) (p : Params) (ya na : ℚ)
    (hy : best_ask_price yes_ob = some ya)
    (hn : best_ask_price no_ob = some na)
    (hya : 0 < ya) (hna : 0 < na) :
    (check_arb_strategy yes_ob no_ob p).isSome = true ↔
      p.arb_threshold_bps / 10000 ≤
        (compute_arb_edge ya na ((p.min_trade_usd + p.max_trade_usd) / 2)
          p).2 := by
  have hya' : ¬(ya ≤ 0 ∨ na ≤ 0) := by
    push_neg
    exact ⟨hya, hna⟩
  simp only [check_arb_strategy, effective_buy_price, hy, hn, if_neg hya']
  set net := (compute_arb_edge ya na ((p.min_trade_usd + p.max_trade_usd) / 2)
    p).2 with hnet
  by_cases hlt : net < p.arb_threshold_bps / 10000
  · rw [if_pos hlt]
    simp only [Option.isSome_none]
    exact iff_of_false (by decide) (not_le.mpr hlt)
  · rw [if_neg hlt]
    simp only [Option.isSome_some]
    exact iff_of_true trivial (not_lt.mp hlt)

/-- C6, witness: with asks 0.48/0.49 and `arb_threshold_bps = 266`, the net
edge equals the threshold exactly and the boundary case emits. -/
theorem arb_emission_boundary_case_emits :
    paramsBoundary266.arb_threshold_bps / 10000 =
      (compute_arb_edge (48/100) (49/100)
        ((paramsBoundary266.min_trade_usd + paramsBoundary266.max_trade_usd)
          / 2) paramsBoundary266).2 ∧
    (check_arb_strategy (some bookY48) (some bookN49)
      paramsBoundary266).isSome = true := by
  have hy : best_ask_price (some bookY48) = some (48/100) := by
    norm_num [best_ask_price, bookY48, parseAll, parseField, listMin]
  have hn : best_ask_price (some bookN49) = some (49/100) := by
    norm_num [best_ask_price, bookN49, parseAll, parseField, listMin]
  have hb : paramsBoundary266.arb_threshold_bps / 10000 =
      (compute_arb_edge (48/100) (49/100)
        ((paramsBoundary266.min_trade_usd + paramsBoundary266.max_trade_usd)
          / 2) paramsBoundary266).2 := by
    norm_num [compute_arb_edge, total_fees, paramsBoundary266, paramsMid1000]
  refine ⟨hb, ?_⟩
  exact (arb_emission_iff_net_edge_ge_threshold (some bookY48) (some bookN49)
    paramsBoundary266 (48/100) (49/100) hy hn (by norm_num)
    (by norm_num)).mpr (le_of_eq hb)

/-- C1, counterexample: a mispriced opportunity whose drawn cost
(price + slippage) reaches 1.0 is nevertheless simulated as a filled
trade — the mispriced branch of `simulate_trade` has no rejection path, so
the claimed rejection rule does not apply to all three strategies. -/
theorem mispriced_cost_ge_one_still_fills :
    (1 : ℚ) ≤ 98/100 + 2/100 ∧
    (0 : ℚ) ≤ 2/100 ∧ (2 : ℚ)/100 ≤ paramsSlip2.slippage_pct / 100 ∧
    (simulate_trade (.mispriced (98/100) 20 (12/10) 60 .yes) paramsSlip2
      (2/100) (9/10) 100).status = .filled := by
  refine ⟨by norm_num, by norm_num, ?_, ?_⟩
  · norm_num [paramsSlip2, paramsMid1000]
  · norm_num [simulate_trade, SimResult.status]

/-- C1, amended: `simulate_trade` rejects an arbitrage opportunity iff the
drawn cost `yes_price + no_price + slip` reaches 1.0 and a snipe
opportunity iff `price + slip` reaches 1.0, and otherwise fills with
`net_pnl = gross_pnl − gas` (divisor 1) resp. `gross_pnl − gas/2`
(divisor 2); a mispriced opportunity is always filled, with
`net_pnl = gross_pnl − gas/4` (divisor 4), even when the drawn cost
reaches 1.0.  `simulate_execution` of `polymarketGPT.py` likewise rejects
(returns `none`) iff the drawn cost reaches 1.0 and otherwise fills with
`net_pnl = gross_pnl − gas`. -/
theorem simulate_trade_rejection_and_gas_divisors
    (ya na ne pr ed mp ms mc md slip fill size b1 b2 : ℚ)
    (tk tk2 : Token) (p : Params) (pp : PolyGPT.EParams) :
    ((simulate_trade (.arb ya na ne) p slip fill size).status = .rejected ↔
      1 ≤ ya + na + slip) ∧
    (ya + na + slip < 1 →
      (simulate_trade (.arb ya na ne) p slip fill size).netPnl =
        (simulate_trade (.arb ya na ne) p slip fill size).grossPnl -
          p.gas_merge_usd) ∧
    ((simulate_trade (.snipe pr ed tk) p slip fill size).status = .rejected ↔
      1 ≤ pr + slip) ∧
    (pr + slip < 1 →
      (simulate_trade (.snipe pr ed tk) p slip fill size).netPnl =
        (simulate_trade (.snipe pr ed tk) p slip fill size).grossPnl -
          p.gas_merge_usd / 2) ∧
    ((simulate_trade (.mispriced mp ms mc md tk2) p slip fill size).status =
      .filled) ∧
    ((simulate_trade (.mispriced mp ms mc md tk2) p slip fill size).netPnl =
      (simulate_trade (.mispriced mp ms mc md tk2) p slip fill size).grossPnl
        - p.gas_merge_usd / 4) ∧
    (PolyGPT.simulate_execution b1 b2 pp slip fill size = none ↔
      1 ≤ b1 + b2 + slip) ∧
    (∀ r, PolyGPT.simulate_execution b1 b2 pp slip fill size = some r →
      r.net_pnl = r.gross_pnl - pp.gas_merge_usd) := by
  refine ⟨?_, ?_, ?_, ?_, ?_, ?_, ?_, ?_⟩
  · simp only [simulate_trade]
    by_cases hc : ya + na + slip ≥ 1
    · rw [if_pos hc]
      exact iff_of_true rfl hc
    · rw [if_neg hc]
      exact iff_of_false (by simp [SimResult.status]) hc
  · intro h
    have hc : ¬(ya + na + slip ≥ 1) := not_le.mpr h
    simp only [simulate_trade, if_neg hc, SimResult.netPnl,
      SimResult.grossPnl]
  · simp only [simulate_trade]
    by_cases hc : pr + slip ≥ 1
    · rw [if_pos hc]
      exact iff_of_true rfl hc
    · rw [if_neg hc]
      exact iff_of_false (by simp [SimResult.status]) hc
  · intro h
    have hc : ¬(pr + slip ≥ 1) := not_le.mpr h
    simp only [simulate_trade, if_neg hc, SimResult.netPnl,
      SimResult.grossPnl]
  · simp only [simulate_trade, SimResult.status]
  · simp only [simulate_trade, SimResult.netPnl, SimResult.grossPnl]
  · simp only [PolyGPT.simulate_execution]
    by_cases hc : b1 + b2 + slip ≥ 1
    · rw [if_pos hc]
      exact iff_of_true rfl hc
    · rw [if_neg hc]
      exact iff_of_false (by simp) hc
  · intro r hr
    simp only [PolyGPT.simulate_execution] at hr
    split at hr
    · exact absurd hr (by simp)
    · cases hr
      rfl

/-- C1, witness: the amended branch facts evaluated at concrete inputs:
an arbitrage draw with cost 1.02 is rejected, and a snipe draw with cost
0.51 fills with the half-gas deduction. -/
theorem simulate_trade_branch_facts_witness :
    (simulate_trade (.arb (52/100) (49/100) (1/100)) paramsSlip2 (1/100) 1
      100).status = .rejected ∧
    (simulate_trade (.snipe (1/2) (45/100) .yes) paramsSlip2 (1/100) 1
      100).netPnl =
      (simulate_trade (.snipe (1/2) (45/100) .yes) paramsSlip2 (1/100) 1
        100).grossPnl - paramsSlip2.gas_merge_usd / 2 := by
  constructor
  · exact (simulate_trade_rejection_and_gas_divisors (52/100) (49/100)
      (1/100) 0 0 0 0 0 0 (1/100) 1 100 0 0 .yes .yes paramsSlip2
      ⟨0, 0, 0, 0⟩).1.mpr (by norm_num)
  · exact (simulate_trade_rejection_and_gas_divisors 0 0 0 (1/2) (45/100)
      0 0 0 0 (1/100) 1 100 0 0 .yes .yes paramsSlip2
      ⟨0, 0, 0, 0⟩).2.2.2.1 (by norm_num)

/-- A single malformed entry anywhere in the list aborts the whole
price-parsing generator. -/
theorem parseAll_eq_none_of_mem {es : List RawEntry} {e : RawEntry}
    (he : e ∈ es) (hbad : parseField e.price = none) :
    parseAll es = none := by
  induction es with
  | nil => cases he
  | cons a rest ih =>
    rcases List.mem_cons.mp he with rfl | hmem
    · simp only [parseAll, hbad]
    · simp only [parseAll]
      rw [ih hmem]
      cases parseField a.price <;> rfl

/-- C10: the best-ask/best-bid accessors of both scripts are total: a
missing book or a missing/empty ask (resp. bid) list yields `none`; in
`crypto5m_bot.py` a malformed entry (missing or unparseable price) makes
the accessor return `none` via its catch-all handler, while in
`polymarketGPT.py` malformed entries are skipped individually; every input
produces either `none` or a price, never an exception. -/
theorem best_price_accessors_total :
    (best_ask_price none = none) ∧
    (∀ b : Book, b.asks.getD [] = [] → best_ask_price (some b) = none) ∧
    (best_bid_price none = none) ∧
    (∀ b : Book, b.bids.getD [] = [] → best_bid_price (some b) = none) ∧
    (∀ (asks : List RawEntry) (bids : Option (List RawEntry))
      (e : RawEntry), e ∈ asks → parseField e.price = none →
      best_ask_price (some ⟨some asks, bids⟩) = none) ∧
    (∀ (bids : List RawEntry) (asks : Option (List RawEntry))
      (e : RawEntry), e ∈ bids → parseField e.price = none →
      best_bid_price (some ⟨asks, some bids⟩) = none) ∧
    (PolyGPT.best_ask none = none) ∧
    (∀ b : PolyGPT.Book2, b.asks.getD [] = [] →
      PolyGPT.best_ask (some b) = none) ∧
    (PolyGPT.best_bid none = none) ∧
    (∀ b : PolyGPT.Book2, b.bids.getD [] = [] →
      PolyGPT.best_bid (some b) = none) ∧
    (PolyGPT.best_ask (some ⟨some [⟨some .bad, none, none, none⟩,
      ⟨some (.num (1/2)), none, some (.num 1), none⟩], none⟩)
      = some (1/2)) ∧
    (∀ ob : Option Book,
      best_ask_price ob = none ∨ ∃ q, best_ask_price ob = some q) := by
  refine ⟨rfl, ?_, rfl, ?_, ?_, ?_, rfl, ?_, rfl, ?_, ?_, ?_⟩
  · intro b hb
    simp only [best_ask_price, hb, List.isEmpty_nil, if_true]
  · intro b hb
    simp only [best_bid_price, hb, List.isEmpty_nil, if_true]
  · intro asks bids e he hbad
    have h := parseAll_eq_none_of_mem he hbad
    have hne : e ∈ asks → asks ≠ [] := fun h hnil => by
      rw [hnil] at h
      cases h
    simp only [best_ask_price, Option.getD_some, h]
    rw [if_neg (by simp [List.isEmpty_iff, hne he])]
  · intro bids asks e he hbad
    have h := parseAll_eq_none_of_mem he hbad
    have hne : e ∈ bids → bids ≠ [] := fun h hnil => by
      rw [hnil] at h
      cases h
    simp only [best_bid_price, Option.getD_some, h]
    rw [if_neg (by simp [List.isEmpty_iff, hne he])]
  · intro b hb
    simp only [PolyGPT.best_ask, hb, List.filterMap_nil, listMin]
  · intro b hb
    simp only [PolyGPT.best_bid, hb, List.filterMap_nil, listMax]
  · norm_num [PolyGPT.best_ask, PolyGPT.getField2, List.filterMap, listMin]
  · intro ob
    cases h : best_ask_price ob with
    | none => exact Or.inl rfl
    | some q => exact Or.inr ⟨q, rfl⟩

/-- C10, witness: the `none`/skip behaviours evaluated at concrete inputs:
an empty ask list yields `none`, a book whose single ask entry has no
price field yields `none`. -/
theorem best_price_accessors_total_witness :
    best_ask_price (some ⟨some [], some []⟩) = none ∧
    best_ask_price (some ⟨some [⟨none, some (.num 5)⟩], some []⟩)
      = none := by
  constructor
  · exact best_price_accessors_total.2.1 ⟨some [], some []⟩ rfl
  · exact best_price_accessors_total.2.2.2.2.1 [⟨none, some (.num 5)⟩]
      (some []) ⟨none, some (.num 5)⟩ (List.mem_singleton.mpr rfl) rfl

/-- C7: `check_snipe_strategy` emits nothing when the time remaining
exceeds the snipe window; it emits at most one opportunity per symbol per
scan; and when both sides clear the snipe threshold it selects the side
with the higher ask price (ties favouring YES), whose edge is the
*minimum* of the two edges — not the candidate with the highest edge. -/
theorem snipe_window_gating_and_highest_ask_selection
    (yes_ob no_ob : Option Book) (tl : ℚ) (p : Params) :
    (p.last_15s_window < tl → check_snipe_strategy yes_ob no_ob tl p = none) ∧
    ((check_snipe_strategy yes_ob no_ob tl p).toList.length ≤ 1) ∧
    (∀ ya na, tl ≤ p.last_15s_window →
      best_ask_price yes_ob = some ya → best_ask_price no_ob = some na →
      0 < ya → 0 < na →
      p.snipe_threshold ≤ 1 - ya - snipe_fees p →
      p.snipe_threshold ≤ 1 - na - snipe_fees p →
      check_snipe_strategy yes_ob no_ob tl p =
        some ⟨if ya < na then Token.no else Token.yes, max ya na,
          min (1 - ya - snipe_fees p) (1 - na - snipe_fees p), tl⟩) := by
  refine ⟨?_, ?_, ?_⟩
  · intro h
    simp only [check_snipe_strategy]
    rw [if_pos h]
  · cases h : check_snipe_strategy yes_ob no_ob tl p <;>
      simp [Option.toList]
  · intro ya na htl hy hn hya hna hey hen
    have hnotgt : ¬(tl > p.last_15s_window) := not_lt.mpr htl
    simp only [check_snipe_strategy, if_neg hnotgt, effective_buy_price,
      hy, hn]
    rw [if_pos ⟨hya, hey⟩, if_pos ⟨hna, hen⟩]
    simp only [List.singleton_append, pickMaxConfidence, List.foldl_cons,
      List.foldl_nil]
    by_cases hlt : ya < na
    · rw [if_pos (show na > ya from hlt), if_pos hlt]
      have h1 : max ya na = na := max_eq_right hlt.le
      have h2 : min (1 - ya - snipe_fees p) (1 - na - snipe_fees p) =
          1 - na - snipe_fees p := min_eq_right (by linarith)
      rw [h1, h2]
    · rw [if_neg (show ¬(na > ya) from hlt), if_neg hlt]
      have hle : na ≤ ya := not_lt.mp hlt
      have h1 : max ya na = ya := max_eq_left hle
      have h2 : min (1 - ya - snipe_fees p) (1 - na - snipe_fees p) =
          1 - ya - snipe_fees p := min_eq_left (by linarith)
      rw [h1, h2]

/-- C7, witness: with a 15-second window, a scan 20 seconds before close
emits nothing; 10 seconds before close with asks 0.48 (YES) and 0.49 (NO),
both clearing the threshold, the NO side is selected — the higher ask,
which carries the *lower* edge. -/
theorem snipe_selection_witness :
    check_snipe_strategy (some bookY48) (some bookN49) 20 paramsMid1000
      = none ∧
    check_snipe_strategy (some bookY48) (some bookN49) 10 paramsMid1000
      = some ⟨Token.no, 49/100, 50755/100000, 10⟩ ∧
    (50755 : ℚ)/100000 < 1 - 48/100 - snipe_fees paramsMid1000 := by
  have hy : best_ask_price (some bookY48) = some (48/100) := by
    norm_num [best_ask_price, bookY48, parseAll, parseField, listMin]
  have hn : best_ask_price (some bookN49) = some (49/100) := by
    norm_num [best_ask_price, bookN49, parseAll, parseField, listMin]
  refine ⟨?_, ?_, ?_⟩
  · exact (snipe_window_gating_and_highest_ask_selection (some bookY48)
      (some bookN49) 20 paramsMid1000).1 (by norm_num [paramsMid1000])
  · have h := (snipe_window_gating_and_highest_ask_selection (some bookY48)
      (some bookN49) 10 paramsMid1000).2.2 (48/100) (49/100)
      (by norm_num [paramsMid1000]) hy hn (by norm_num) (by norm_num)
      (by norm_num [snipe_fees, paramsMid1000])
      (by norm_num [snipe_fees, paramsMid1000])
    rw [h]
    norm_num [snipe_fees, paramsMid1000]
  · norm_num [snipe_fees, paramsMid1000]

/-- Every symbol is tracked. -/
theorem mem_allSyms (sym : Sym) : sym ∈ allSyms := by
  cases sym <;> simp [allSyms]

/-- C8, counterexample: with the floor value unchanged (`now = 300 =
current_period_start`) but an empty metadata cache, `run_scan` refetches
metadata — the cache is repopulated, not left untouched — while the
period-transition counter stays put. -/
theorem metadata_refetched_when_cache_empty_without_rotation :
    (300 : ℤ) = stEmpty.current_period_start ∧
    stEmpty.market_data Sym.btc = none ∧
    (run_scan_rotation provAll 300 stEmpty).market_data Sym.btc
      = some md0 ∧
    (run_scan_rotation provAll 300 stEmpty).market_data Sym.btc
      ≠ stEmpty.market_data Sym.btc ∧
    (run_scan_rotation provAll 300 stEmpty).period_transitions
      = stEmpty.period_transitions := by
  refine ⟨rfl, rfl, ?_, ?_, ?_⟩ <;>
    simp [run_scan_rotation, refresh_market_data, stEmpty, provAll, allSyms]

/-- C8, amended: when the floored period value differs from the stored
`current_period_start`, `run_scan` increments the period-transition
counter by exactly one and discards the cached metadata and order books of
ALL symbols — afterwards each symbol's caches are determined by the
provider alone; when the floor value is unchanged the counter is untouched
and, provided the metadata cache is non-empty, the metadata cache is
untouched too (an empty cache is repopulated by a full refresh). -/
theorem rotation_counter_increment_and_full_cache_clear
    (prov : Provider) (now : ℤ) (st : BotState) :
    (now ≠ st.current_period_start →
      (run_scan_rotation prov now st).period_transitions
        = st.period_transitions + 1 ∧
      (run_scan_rotation prov now st).current_period_start = now ∧
      ∀ sym,
        (run_scan_rotation prov now st).market_data sym
          = prov.fetchMd sym now ∧
        (run_scan_rotation prov now st).orderbooks sym
          = (prov.fetchMd sym now).map
              (fun m => ⟨prov.fetchOb m.yes_token, prov.fetchOb m.no_token⟩)) ∧
    (now = st.current_period_start →
      (run_scan_rotation prov now st).period_transitions
        = st.period_transitions ∧
      ((∃ sym, (st.market_data sym).isSome) →
        ∀ sym, (run_scan_rotation prov now st).market_data sym
          = st.market_data sym)) := by
  constructor
  · intro h
    refine ⟨?_, ?_, fun sym => ⟨?_, ?_⟩⟩
    · simp only [run_scan_rotation, if_pos h, refresh_market_data]
    · simp only [run_scan_rotation, if_pos h, refresh_market_data]
    · simp only [run_scan_rotation, if_pos h, refresh_market_data]
      cases prov.fetchMd sym now <;> rfl
    · simp only [run_scan_rotation, if_pos h, refresh_market_data]
      cases prov.fetchMd sym now <;> rfl
  · intro h
    have h' : ¬(now ≠ st.current_period_start) := fun hc => hc h
    simp only [run_scan_rotation, if_neg h']
    by_cases hall : allSyms.all (fun sym => (st.market_data sym).isNone)
    · rw [if_pos hall]
      refine ⟨rfl, ?_⟩
      rintro ⟨sym, hsym⟩
      have h1 : (st.market_data sym).isNone = true :=
        List.all_eq_true.mp hall sym (mem_allSyms sym)
      rw [Option.isNone_iff_eq_none.mp h1] at hsym
      simp at hsym
    · rw [if_neg hall]
      exact ⟨rfl, fun _ sym => rfl⟩

/-- C8, witness: a concrete rotation (stored start 300, floor now 600)
bumps the counter from 5 to exactly 6 and resets the caches of every
symbol, including symbols other than the one that changed; a concrete
non-rotation scan with a non-empty cache leaves the metadata of every
symbol untouched. -/
theorem rotation_counter_increment_witness :
    (run_scan_rotation provAll 600 stCached).period_transitions = 6 ∧
    (run_scan_rotation provAll 600 stCached).market_data Sym.eth
      = some md0 ∧
    (run_scan_rotation provAll 300 stCached).market_data Sym.eth
      = stCached.market_data Sym.eth ∧
    (run_scan_rotation provAll 300 stCached).period_transitions = 5 := by
  have hrot := (rotation_counter_increment_and_full_cache_clear provAll 600
    stCached).1 (by norm_num [stCached])
  have hsame := (rotation_counter_increment_and_full_cache_clear provAll 300
    stCached).2 rfl
  refine ⟨?_, ?_, ?_, ?_⟩
  · rw [hrot.1]
    rfl
  · rw [(hrot.2.2 Sym.eth).1]
    rfl
  · exact hsame.2 ⟨Sym.btc, by simp [stCached]⟩ Sym.eth
  · rw [hsame.1]
    rfl

/-- Level volume of the empty book. -/
theorem assocVol_nil (q : ℚ) : assocVol [] q = 0 := rfl

/-- Level volume of a cons: the head contributes iff its price matches. -/
theorem assocVol_cons (e : ℚ × ℚ) (l : List (ℚ × ℚ)) (q : ℚ) :
    assocVol (e :: l) q = (if e.1 = q then e.2 else 0) + assocVol l q := by
  by_cases h : e.1 = q <;>
    simp [assocVol, List.filter_cons, h]

/-- A price level absent from a list carries zero volume. -/
theorem assocVol_eq_zero_of_not_mem {l : List (ℚ × ℚ)} {q : ℚ}
    (h : q ∉ l.map Prod.fst) : assocVol l q = 0 := by
  induction l with
  | nil => rfl
  | cons e rest ih =>
    rw [assocVol_cons]
    have h1 : e.1 ≠ q := fun hc => h (by simp [hc.symm])
    rw [if_neg h1, ih (fun hc => h (List.mem_cons_of_mem _ hc))]
    ring

/-- `addVol` adds `s` to level `p` and leaves every other level alone. -/
theorem assocVol_addVol (acc : List (ℚ × ℚ)) (p s q : ℚ) :
    assocVol (addVol acc p s) q =
      assocVol acc q + (if q = p then s else 0) := by
  induction acc with
  | nil =>
    rw [show addVol [] p s = [(p, s)] from rfl, assocVol_cons, assocVol_nil]
    by_cases h : p = q
    · rw [if_pos h, if_pos h.symm]
      ring
    · rw [if_neg h, if_neg (fun hc => h hc.symm)]
  | cons a rest ih =>
    obtain ⟨a1, a2⟩ := a
    simp only [addVol]
    by_cases h : p = a1
    · rw [if_pos h, assocVol_cons, assocVol_cons]
      by_cases hq : a1 = q
      · rw [if_pos hq, if_pos hq, if_pos (h.trans hq).symm]
        ring
      · rw [if_neg hq, if_neg hq,
          if_neg (fun hc : q = p => hq (h.symm.trans hc.symm))]
        ring
    · rw [if_neg h, assocVol_cons, assocVol_cons, ih]
      ring

/-- Keys of `addVol`: unchanged when the price is present, appended
otherwise. -/
theorem keys_addVol (acc : List (ℚ × ℚ)) (p s : ℚ) :
    (addVol acc p s).map Prod.fst =
      if p ∈ acc.map Prod.fst then acc.map Prod.fst
      else acc.map Prod.fst ++ [p] := by
  induction acc with
  | nil => simp [addVol]
  | cons a rest ih =>
    obtain ⟨a1, a2⟩ := a
    simp only [addVol]
    by_cases h : p = a1
    · rw [if_pos h]
      simp [h]
    · rw [if_neg h]
      simp only [List.map_cons, ih]
      by_cases hm : p ∈ rest.map Prod.fst
      · rw [if_pos hm, if_pos (by simp [hm])]
      · rw [if_neg hm, if_neg (by
          simp only [List.map_cons, List.mem_cons]
          push_neg
          exact ⟨h, hm⟩)]
        simp

/-- `dfAux` only depends on the membership content of `seen`. -/
theorem dfAux_congr {seen1 seen2 : List ℚ} (l : List ℚ)
    (h : ∀ x, x ∈ seen1 ↔ x ∈ seen2) : dfAux seen1 l = dfAux seen2 l := by
  induction l generalizing seen1 seen2 with
  | nil => rfl
  | cons p ps ih =>
    simp only [dfAux]
    by_cases hp : p ∈ seen1
    · rw [if_pos hp, if_pos ((h p).mp hp)]
      exact ih h
    · rw [if_neg hp, if_neg (fun hc => hp ((h p).mpr hc))]
      exact congrArg (List.cons p)
        (ih (fun x => by
          simp only [List.mem_cons]
          exact or_congr Iff.rfl (h x)))

/-- Membership in `dfAux`. -/
theorem mem_dfAux {x : ℚ} {seen l : List ℚ} :
    x ∈ dfAux seen l ↔ x ∈ l ∧ x ∉ seen := by
  induction l generalizing seen with
  | nil => simp [dfAux]
  | cons p ps ih =>
    simp only [dfAux]
    by_cases hp : p ∈ seen
    · rw [if_pos hp, ih]
      constructor
      · rintro ⟨h1, h2⟩
        exact ⟨List.mem_cons_of_mem _ h1, h2⟩
      · rintro ⟨h1, h2⟩
        rcases List.mem_cons.mp h1 with rfl | h1
        · exact absurd hp h2
        · exact ⟨h1, h2⟩
    · rw [if_neg hp]
      simp only [List.mem_cons, ih, List.mem_cons]
      constructor
      · rintro (rfl | ⟨h1, h2⟩)
        · exact ⟨Or.inl rfl, hp⟩
        · exact ⟨Or.inr h1, fun hc => h2 (Or.inr hc)⟩
      · rintro ⟨rfl | h1, h2⟩
        · exact Or.inl rfl
        · by_cases hx : x = p
          · exact Or.inl hx
          · exact Or.inr ⟨h1, fun hc => (by
              rcases hc with hc | hc
              · exact hx hc
              · exact h2 hc)⟩

/-- `dfAux` has no duplicates. -/
theorem nodup_dfAux (seen l : List ℚ) : (dfAux seen l).Nodup := by
  induction l generalizing seen with
  | nil => exact List.nodup_nil
  | cons p ps ih =>
    simp only [dfAux]
    by_cases hp : p ∈ seen
    · rw [if_pos hp]
      exact ih seen
    · rw [if_neg hp]
      refine List.nodup_cons.mpr ⟨?_, ih (p :: seen)⟩
      intro hc
      exact (mem_dfAux.mp hc).2 (List.mem_cons_self p seen)

/-- Accumulating a book into the volume dict adds its level volumes. -/
theorem assocVol_foldl (entries : List (ℚ × ℚ)) (acc : List (ℚ × ℚ))
    (q : ℚ) :
    assocVol (entries.foldl (fun a e => addVol a e.1 e.2) acc) q =
      assocVol acc q + assocVol entries q := by
  induction entries generalizing acc with
  | nil =>
    rw [List.foldl_nil, assocVol_nil]
    ring
  | cons e es ih =>
    rw [List.foldl_cons, ih, assocVol_addVol, assocVol_cons]
    by_cases h : e.1 = q
    · rw [if_pos h, if_pos h.symm]
      ring
    · rw [if_neg h, if_neg (fun hc => h hc.symm)]
      ring

/-- The keys of an accumulated volume dict are the old keys followed by
the new prices in first-occurrence order. -/
theorem keys_foldl (entries : List (ℚ × ℚ)) (acc : List (ℚ × ℚ)) :
    (entries.foldl (fun a e => addVol a e.1 e.2) acc).map Prod.fst =
      acc.map Prod.fst ++
        dfAux (acc.map Prod.fst) (entries.map Prod.fst) := by
  induction entries generalizing acc with
  | nil => simp [dfAux]
  | cons e es ih =>
    rw [List.foldl_cons, ih, List.map_cons]
    simp only [dfAux]
    by_cases h : e.1 ∈ acc.map Prod.fst
    · rw [if_pos h, keys_addVol, if_pos h]
    · rw [if_neg h, keys_addVol, if_neg h]
      have hcongr : dfAux (acc.map Prod.fst ++ [e.1]) (es.map Prod.fst) =
          dfAux (e.1 :: acc.map Prod.fst) (es.map Prod.fst) :=
        dfAux_congr _ (fun x => by
          simp only [List.mem_append, List.mem_singleton, List.mem_cons]
          tauto)
      rw [hcongr, List.append_assoc, List.singleton_append]

/-- Keys of the `price_vol` dict: the distinct entry prices in
first-occurrence order. -/
theorem price_vol_keys (entries : List (ℚ × ℚ)) :
    (price_vol entries).map Prod.fst = dfAux [] (entries.map Prod.fst) := by
  have h := keys_foldl entries []
  simpa [price_vol] using h

/-- The `price_vol` dict carries the aggregate volume of each level. -/
theorem price_vol_assocVol (entries : List (ℚ × ℚ)) (q : ℚ) :
    assocVol (price_vol entries) q = assocVol entries q := by
  have h := assocVol_foldl entries [] q
  simpa [price_vol, assocVol_nil] using h

/-- On a duplicate-free assoc list, the lookup of a member pair's key gives
exactly its value. -/
theorem assocVol_of_mem_nodup {l : List (ℚ × ℚ)}
    (hnd : (l.map Prod.fst).Nodup) {a : ℚ × ℚ} (ha : a ∈ l) :
    assocVol l a.1 = a.2 := by
  induction l with
  | nil => cases ha
  | cons b rest ih =>
    rw [List.map_cons, List.nodup_cons] at hnd
    rw [assocVol_cons]
    rcases List.mem_cons.mp ha with rfl | ha'
    · rw [if_pos rfl, assocVol_eq_zero_of_not_mem hnd.1]
      ring
    · have hb : b.1 ≠ a.1 := by
        intro hcon
        exact hnd.1 (hcon ▸ List.mem_map.mpr ⟨a, ha', rfl⟩)
      rw [if_neg hb, ih hnd.2 ha']
      ring

/-- The left fold used by `maxByVol` returns the first element whose value
is maximal: the list splits as `l1 ++ result :: l2` with every element of
`l1` strictly below the result and every element of `l2` at most it. -/
theorem foldl_pickVol_first_max (rest : List (ℚ × ℚ)) (pv : ℚ × ℚ) :
    ∃ l1 l2,
      pv :: rest = l1 ++
        (rest.foldl (fun best x => if x.2 > best.2 then x else best) pv)
        :: l2 ∧
      (∀ x ∈ l1, x.2 <
        (rest.foldl (fun best x => if x.2 > best.2 then x else best)
          pv).2) ∧
      (∀ x ∈ l2, x.2 ≤
        (rest.foldl (fun best x => if x.2 > best.2 then x else best)
          pv).2) := by
  induction rest generalizing pv with
  | nil =>
    exact ⟨[], [], rfl, by simp, by simp⟩
  | cons x xs ih =>
    rw [List.foldl_cons]
    by_cases hgt : x.2 > pv.2
    · rw [if_pos hgt]
      obtain ⟨l1, l2, hdec, hl1, hl2⟩ := ih x
      refine ⟨pv :: l1, l2, ?_, ?_, hl2⟩
      · rw [List.cons_append, ← hdec]
      · intro y hy
        rcases List.mem_cons.mp hy with rfl | hy'
        · have hx : x.2 ≤
              (xs.foldl (fun best x => if x.2 > best.2 then x else best)
                x).2 := by
            cases l1 with
            | nil =>
              rw [List.nil_append] at hdec
              injection hdec with h1 _
              rw [← h1]
            | cons c cs =>
              rw [List.cons_append] at hdec
              injection hdec with h1 _
              exact (hl1 x (h1 ▸ List.mem_cons_self c cs)).le
          linarith
        · exact hl1 y hy'
    · rw [if_neg hgt]
      obtain ⟨l1, l2, hdec, hl1, hl2⟩ := ih pv
      cases l1 with
      | nil =>
        rw [List.nil_append] at hdec
        injection hdec with h1 h2
        refine ⟨[], x :: l2, ?_, by simp, ?_⟩
        · rw [List.nil_append, ← h1, ← h2]
        · intro y hy
          rcases List.mem_cons.mp hy with rfl | hy'
          · rw [← h1]
            exact not_lt.mp hgt
          · exact hl2 y hy'
      | cons c cs =>
        rw [List.cons_append] at hdec
        injection hdec with h1 h2
        refine ⟨pv :: x :: cs, l2, ?_, ?_, hl2⟩
        · rw [List.cons_append, List.cons_append, ← h2]
        · intro y hy
          rcases List.mem_cons.mp hy with rfl | hy'
          · exact hl1 y (h1 ▸ List.mem_cons_self c cs)
          · rcases List.mem_cons.mp hy' with rfl | hy''
            · have hc2 : pv.2 <
                  (xs.foldl (fun best x => if x.2 > best.2 then x else best)
                    pv).2 :=
                hl1 pv (h1 ▸ List.mem_cons_self c cs)
              have := not_lt.mp hgt
              linarith
            · exact hl1 y (List.mem_cons_of_mem c hy'')

/-- Elements appearing later in `dfAux` first occur later in the original
list. -/
theorem dfAux_order (l : List ℚ) :
    ∀ (seen l1 l2 : List ℚ) (a b : ℚ),
      dfAux seen l = l1 ++ a :: l2 → b ∈ l2 →
      firstIdx l a < firstIdx l b := by
  induction l with
  | nil =>
    intro seen l1 l2 a b h hb
    cases l1 <;> simp [dfAux] at h
  | cons x xs ih =>
    intro seen l1 l2 a b h hb
    simp only [dfAux] at h
    by_cases hx : x ∈ seen
    · rw [if_pos hx] at h
      have ha_mem : a ∈ dfAux seen xs := by
        rw [h]
        exact List.mem_append_right _ (List.mem_cons_self a l2)
      have hb_mem : b ∈ dfAux seen xs := by
        rw [h]
        exact List.mem_append_right _ (List.mem_cons_of_mem a hb)
      have hax : a ≠ x := fun hc => (mem_dfAux.mp ha_mem).2 (by rwa [hc])
      have hbx : b ≠ x := fun hc => (mem_dfAux.mp hb_mem).2 (by rwa [hc])
      simp only [firstIdx, if_neg hax, if_neg hbx]
      exact Nat.succ_lt_succ (ih seen l1 l2 a b h hb)
    · rw [if_neg hx] at h
      cases l1 with
      | nil =>
        rw [List.nil_append] at h
        injection h with h1 h2
        have hb_mem : b ∈ dfAux (x :: seen) xs := h2 ▸ hb
        have hbx : b ≠ x := fun hc =>
          (mem_dfAux.mp hb_mem).2 (by rw [hc]; exact List.mem_cons_self x seen)
        simp only [firstIdx, if_pos h1.symm, if_neg hbx]
        exact Nat.succ_pos _
      | cons c cs =>
        rw [List.cons_append] at h
        injection h with h1 h2
        have ha_mem : a ∈ dfAux (x :: seen) xs := by
          rw [h2]
          exact List.mem_append_right _ (List.mem_cons_self a l2)
        have hb_mem : b ∈ dfAux (x :: seen) xs := by
          rw [h2]
          exact List.mem_append_right _ (List.mem_cons_of_mem a hb)
        have hax : a ≠ x := fun hc =>
          (mem_dfAux.mp ha_mem).2 (by rw [hc]; exact List.mem_cons_self x seen)
        have hbx : b ≠ x := fun hc =>
          (mem_dfAux.mp hb_mem).2 (by rw [hc]; exact List.mem_cons_self x seen)
        simp only [firstIdx, if_neg hax, if_neg hbx]
        exact Nat.succ_lt_succ (ih (x :: seen) cs l2 a b h2 hb)

/-- A successful `cluster_of` comes from the `maxByVol` fold over the
nonempty `price_vol` dict. -/
theorem cluster_of_eq_fold {entries : List (ℚ × ℚ)} {c : ℚ}
    (h : cluster_of entries = some c) :
    ∃ pv rest, price_vol entries = pv :: rest ∧
      c = (rest.foldl (fun best x => if x.2 > best.2 then x else best)
        pv).1 := by
  unfold cluster_of maxByVol at h
  cases hpv : price_vol entries with
  | nil =>
    rw [hpv] at h
    cases h
  | cons pv rest =>
    rw [hpv] at h
    injection h with h1
    exact ⟨pv, rest, rfl, h1.symm⟩

/-- A nonempty ask list always yields a cluster price. -/
theorem cluster_of_isSome (entries : List (ℚ × ℚ)) (hne : entries ≠ []) :
    ∃ c, cluster_of entries = some c := by
  cases hpv : price_vol entries with
  | cons pv rest =>
    unfold cluster_of maxByVol
    rw [hpv]
    exact ⟨_, rfl⟩
  | nil =>
    exfalso
    cases entries with
    | nil => exact hne rfl
    | cons e es =>
      have hkeys := price_vol_keys (e :: es)
      rw [hpv] at hkeys
      simp [dfAux] at hkeys

/-- The cluster price is a price level of the book, its aggregate volume is
maximal among all levels, and on ties it is the level whose first
occurrence in the ask list comes earliest. -/
theorem cluster_characterization {entries : List (ℚ × ℚ)} {c : ℚ}
    (h : cluster_of entries = some c) :
    c ∈ entries.map Prod.fst ∧
    (∀ q ∈ entries.map Prod.fst,
      assocVol entries q ≤ assocVol entries c) ∧
    (∀ q ∈ entries.map Prod.fst,
      assocVol entries q = assocVol entries c →
      firstIdx (entries.map Prod.fst) c ≤
        firstIdx (entries.map Prod.fst) q) := by
  obtain ⟨pv, rest, hpv, hc⟩ := cluster_of_eq_fold h
  obtain ⟨l1, l2, hdec, hl1, hl2⟩ := foldl_pickVol_first_max rest pv
  set r := rest.foldl (fun best x => if x.2 > best.2 then x else best) pv
    with hr
  have hpvl : price_vol entries = l1 ++ r :: l2 := hpv.trans hdec
  have hkeys : (price_vol entries).map Prod.fst =
      dfAux [] (entries.map Prod.fst) := price_vol_keys entries
  have hnd : ((price_vol entries).map Prod.fst).Nodup := by
    rw [hkeys]
    exact nodup_dfAux [] _
  have hrmem : r ∈ price_vol entries := by
    rw [hpvl]
    exact List.mem_append_right _ (List.mem_cons_self r l2)
  have hrkey : c ∈ (price_vol entries).map Prod.fst :=
    List.mem_map.mpr ⟨r, hrmem, hc.symm⟩
  have hcmem : c ∈ entries.map Prod.fst := by
    rw [hkeys] at hrkey
    exact (mem_dfAux.mp hrkey).1
  have hrval : assocVol entries c = r.2 := by
    rw [← price_vol_assocVol, hc]
    exact assocVol_of_mem_nodup hnd hrmem
  refine ⟨hcmem, ?_, ?_⟩
  · intro q hq
    have hqkey : q ∈ (price_vol entries).map Prod.fst := by
      rw [hkeys]
      exact mem_dfAux.mpr ⟨hq, List.not_mem_nil q⟩
    obtain ⟨x, hx, hxq⟩ := List.mem_map.mp hqkey
    have hxval : assocVol entries q = x.2 := by
      rw [← price_vol_assocVol, ← hxq]
      exact assocVol_of_mem_nodup hnd hx
    rw [hxval, hrval]
    rw [hpvl] at hx
    rcases List.mem_append.mp hx with hx1 | hx2
    · exact (hl1 x hx1).le
    · rcases List.mem_cons.mp hx2 with rfl | hx3
      · exact le_refl _
      · exact hl2 x hx3
  · intro q hq heq
    have hqkey : q ∈ (price_vol entries).map Prod.fst := by
      rw [hkeys]
      exact mem_dfAux.mpr ⟨hq, List.not_mem_nil q⟩
    obtain ⟨x, hx, hxq⟩ := List.mem_map.mp hqkey
    have hxval : assocVol entries q = x.2 := by
      rw [← price_vol_assocVol, ← hxq]
      exact assocVol_of_mem_nodup hnd hx
    rw [hpvl] at hx
    rcases List.mem_append.mp hx with hx1 | hx2
    · exfalso
      have h1 := hl1 x hx1
      rw [← hxval, heq, hrval] at h1
      exact lt_irrefl _ h1
    · rcases List.mem_cons.mp hx2 with rfl | hx3
      · rw [← hxq, ← hc]
      · have hdfa : dfAux [] (entries.map Prod.fst) =
            l1.map Prod.fst ++ c :: l2.map Prod.fst := by
          rw [← hkeys, hpvl, List.map_append, List.map_cons, hc]
        exact (dfAux_order (entries.map Prod.fst) [] (l1.map Prod.fst)
          (l2.map Prod.fst) c q hdfa
          (List.mem_map.mpr ⟨x, hx3, hxq⟩)).le

/-- A book with fewer than two ask entries is never scanned. -/
theorem find_mispriced_of_short (entries : List (ℚ × ℚ)) (ratio ms : ℚ)
    (h2 : entries.length < 2) :
    find_mispriced_orders entries ratio ms = [] := by
  unfold find_mispriced_orders
  rw [if_pos h2]

/-- Membership in the mispriced scan result, characterised entrywise. -/
theorem mem_find_mispriced_iff (entries : List (ℚ × ℚ)) (ratio ms c : ℚ)
    (h2 : ¬(entries.length < 2)) (hc : cluster_of entries = some c)
    (m : Mispriced) :
    m ∈ find_mispriced_orders entries ratio ms ↔
      ∃ e ∈ entries, ms ≤ e.2 ∧ e.1 ≤ c * ratio ∧ e.1 < c - 1/10 ∧
        m = ⟨e.1, e.2, c, (c - e.1) / c * 100, c - e.1⟩ := by
  unfold find_mispriced_orders
  rw [if_neg h2, hc, List.mem_insertionSort, List.mem_filterMap]
  constructor
  · rintro ⟨e, he, hfe⟩
    by_cases hs : e.2 < ms
    · rw [if_pos hs] at hfe
      cases hfe
    · rw [if_neg hs] at hfe
      by_cases hcond : e.1 ≤ c * ratio ∧ e.1 < c - 1/10
      · rw [if_pos hcond] at hfe
        injection hfe with hm
        exact ⟨e, he, not_lt.mp hs, hcond.1, hcond.2, hm.symm⟩
      · rw [if_neg hcond] at hfe
        cases hfe
  · rintro ⟨e, he, hs, hc1, hc2, rfl⟩
    refine ⟨e, he, ?_⟩
    rw [if_neg (not_lt.mpr hs), if_pos ⟨hc1, hc2⟩]

/-- C4, counterexample: on the ask list `[(0.5,100),(0.3,100),(0.04,20)]`
the levels 0.5 and 0.3 tie at total size 100, yet the scanner's cluster
price is 0.5 — the level occurring first — not the lowest tied level 0.3,
as the flagged entry it emits records; ties are NOT broken by lowest
price. -/
theorem cluster_tie_not_broken_by_lowest_price :
    cluster_of tieAsks = some (1/2) ∧
    assocVol tieAsks (3/10) = assocVol tieAsks (1/2) ∧
    (3 : ℚ)/10 < 1/2 ∧
    ((3 : ℚ)/10) ∈ tieAsks.map Prod.fst ∧
    find_mispriced_orders tieAsks (1/2) 10 =
      [⟨1/25, 20, 1/2, 92, 23/50⟩] := by
  refine ⟨?_, ?_, by norm_num, ?_, ?_⟩
  · norm_num [cluster_of, price_vol, addVol, maxByVol, tieAsks]
  · norm_num [assocVol_cons, assocVol_nil, tieAsks]
  · norm_num [tieAsks]
  · norm_num [find_mispriced_orders, cluster_of, price_vol, addVol,
      maxByVol, List.filterMap, List.insertionSort, List.orderedInsert,
      tieAsks, Mispriced.mk.injEq]

/-- C4, amended: for every ask list with at least two entries the cluster
price exists, is a price level of the list, carries the greatest total
size after grouping entries by exact price and summing size per level, and
when two levels tie on total size the one whose FIRST OCCURRENCE in the
list comes earliest is chosen (insertion order, not lowest price); every
entry flagged by the scanner records exactly this cluster price. -/
theorem cluster_price_greatest_volume_earliest_tiebreak
    (entries : List (ℚ × ℚ)) (ratio ms : ℚ) (h2 : 2 ≤ entries.length) :
    ∃ c, cluster_of entries = some c ∧
      c ∈ entries.map Prod.fst ∧
      (∀ q ∈ entries.map Prod.fst,
        assocVol entries q ≤ assocVol entries c) ∧
      (∀ q ∈ entries.map Prod.fst,
        assocVol entries q = assocVol entries c →
        firstIdx (entries.map Prod.fst) c ≤
          firstIdx (entries.map Prod.fst) q) ∧
      (∀ m ∈ find_mispriced_orders entries ratio ms,
        m.cluster_price = c) := by
  have hne : entries ≠ [] := by
    intro hc
    rw [hc] at h2
    norm_num at h2
  obtain ⟨c, hc⟩ := cluster_of_isSome entries hne
  obtain ⟨hmem, hmax, htie⟩ := cluster_characterization hc
  refine ⟨c, hc, hmem, hmax, htie, ?_⟩
  intro m hm
  rw [mem_find_mispriced_iff entries ratio ms c (not_lt.mpr h2) hc] at hm
  obtain ⟨e, -, -, -, -, rfl⟩ := hm
  rfl

/-- C4, witness: the amended characterisation applied to the tie example:
the cluster is 0.5, a member price whose volume dominates both other
levels, and the tied level 0.3 indeed first occurs no earlier. -/
theorem cluster_price_characterization_witness :
    cluster_of tieAsks = some (1/2) ∧
    assocVol tieAsks (3/10) ≤ assocVol tieAsks (1/2) ∧
    firstIdx (tieAsks.map Prod.fst) (1/2) ≤
      firstIdx (tieAsks.map Prod.fst) (3/10) := by
  obtain ⟨c, hcs, hmem, hmax, htie, houts⟩ :=
    cluster_price_greatest_volume_earliest_tiebreak tieAsks (1/2) 10
      (by norm_num [tieAsks])
  have hcex : cluster_of tieAsks = some (1/2) := by
    norm_num [cluster_of, price_vol, addVol, maxByVol, tieAsks]
  have hceq : c = 1/2 := Option.some.inj (hcs.symm.trans hcex)
  subst hceq
  refine ⟨hcs, hmax (3/10) (by norm_num [tieAsks]), ?_⟩
  refine htie (3/10) (by norm_num [tieAsks]) ?_
  norm_num [assocVol_cons, assocVol_nil, tieAsks]

/-- C5: an entry `(price, size)` of an ask list with at least two entries
is flagged by the mispriced scanner iff `size ≥ min_size`,
`price ≤ cluster_price × ratio` and `price < cluster_price − 0.10`; on
`[(0.97,100),(0.97,50),(0.04,20)]` with ratio 0.5 and min size 10 the scan
flags exactly the 0.04 entry (cluster 0.97, discount 9300/97 ≈ 95.9%),
and on `[(0.08,100),(0.08,50),(0.039,20)]` it flags nothing. -/
theorem mispriced_flag_iff_conditions (entries : List (ℚ × ℚ))
    (ratio ms c pq sq : ℚ) (h2 : 2 ≤ entries.length)
    (hc : cluster_of entries = some c) :
    ((∃ m ∈ find_mispriced_orders entries ratio ms,
        m.price = pq ∧ m.size = sq) ↔
      ((pq, sq) ∈ entries ∧ ms ≤ sq ∧ pq ≤ c * ratio ∧
        pq < c - 1/10)) ∧
    find_mispriced_orders clusterAsks (1/2) 10 =
      [⟨1/25, 20, 97/100, 9300/97, 93/100⟩] ∧
    find_mispriced_orders lowClusterAsks (1/2) 10 = [] := by
  refine ⟨?_, ?_, ?_⟩
  · constructor
    · rintro ⟨m, hm, hp, hs⟩
      rw [mem_find_mispriced_iff entries ratio ms c (not_lt.mpr h2) hc]
        at hm
      obtain ⟨e, he, hms, hr, hgap, rfl⟩ := hm
      simp only at hp hs
      rw [← hp, ← hs]
      exact ⟨by rwa [Prod.mk.eta], hms, hr, hgap⟩
    · rintro ⟨hmem, hms, hr, hgap⟩
      refine ⟨⟨pq, sq, c, (c - pq) / c * 100, c - pq⟩, ?_, rfl, rfl⟩
      rw [mem_find_mispriced_iff entries ratio ms c (not_lt.mpr h2) hc]
      exact ⟨(pq, sq), hmem, hms, hr, hgap, rfl⟩
  · norm_num [find_mispriced_orders, cluster_of, price_vol, addVol,
      maxByVol, List.filterMap, List.insertionSort, List.orderedInsert,
      clusterAsks, Mispriced.mk.injEq]
  · norm_num [find_mispriced_orders, cluster_of, price_vol, addVol,
      maxByVol, List.filterMap, List.insertionSort, List.orderedInsert,
      lowClusterAsks]

/-- C5, witness: the flag conditions evaluated on the 0.97-cluster
example: the 0.04/20 entry satisfies them, so a flagged record with that
price and size exists in the scan output, which is therefore nonempty. -/
theorem mispriced_flag_iff_conditions_witness :
    find_mispriced_orders clusterAsks (1/2) 10 ≠ [] ∧
    ((1 : ℚ)/25, (20 : ℚ)) ∈ clusterAsks := by
  have hcl : cluster_of clusterAsks = some (97/100) := by
    norm_num [cluster_of, price_vol, addVol, maxByVol, clusterAsks]
  have h := (mispriced_flag_iff_conditions clusterAsks (1/2) 10 (97/100)
    (1/25) 20 (by norm_num [clusterAsks]) hcl).1
  obtain ⟨m, hm, -, -⟩ := h.mpr
    ⟨by norm_num [clusterAsks], by norm_num, by norm_num, by norm_num⟩
  exact ⟨List.ne_nil_of_mem hm, by norm_num [clusterAsks]⟩

/-- C9: when all ask prices are positive (the order-book invariant), every
record returned by the mispriced scanner has price strictly below
`cluster_price − 0.10`, estimated profit per share equal to
`cluster_price − price` and hence strictly above 0.10, and a strictly
positive discount percentage: no non-positive estimated profit can be
reported. -/
theorem mispriced_output_profit_positive (entries : List (ℚ × ℚ))
    (ratio ms : ℚ) (hpos : ∀ e ∈ entries, 0 < e.1) :
    ∀ m ∈ find_mispriced_orders entries ratio ms,
      m.price < m.cluster_price - 1/10 ∧
      m.est_profit_per_share = m.cluster_price - m.price ∧
      1/10 < m.est_profit_per_share ∧
      0 < m.discount_pct := by
  intro m hm
  by_cases h2 : entries.length < 2
  · rw [find_mispriced_of_short entries ratio ms h2] at hm
    cases hm
  · have hne : entries ≠ [] := by
      intro hcon
      rw [hcon] at h2
      exact h2 (by norm_num)
    obtain ⟨c, hcs⟩ := cluster_of_isSome entries hne
    rw [mem_find_mispriced_iff entries ratio ms c h2 hcs] at hm
    obtain ⟨e, he, hms, hr, hgap, rfl⟩ := hm
    have hc0 : 0 < c := by
      obtain ⟨x, hx, hxq⟩ := List.mem_map.mp (cluster_characterization hcs).1
      rw [← hxq]
      exact hpos x hx
    refine ⟨hgap, rfl, by linarith, ?_⟩
    have hdiv : 0 < (c - e.1) / c := div_pos (by linarith) hc0
    have : (0 : ℚ) < 100 := by norm_num
    exact mul_pos hdiv this

/-- C9, witness: the invariant evaluated on the 0.97-cluster example's
flagged record: price 0.04 is below 0.87, the estimated profit 0.93
exceeds 0.10 and the discount 9300/97 is positive. -/
theorem mispriced_output_profit_positive_witness :
    ((1 : ℚ)/25 < 97/100 - 1/10) ∧
    ((93 : ℚ)/100 = 97/100 - 1/25) ∧
    ((1 : ℚ)/10 < 93/100) ∧
    ((0 : ℚ) < 9300/97) := by
  have hpos : ∀ e ∈ clusterAsks, (0 : ℚ) < e.1 := by
    intro e he
    simp only [clusterAsks, List.mem_cons, List.not_mem_nil, or_false]
      at he
    rcases he with rfl | rfl | rfl <;> norm_num
  have hmem : (⟨1/25, 20, 97/100, 9300/97, 93/100⟩ : Mispriced) ∈
      find_mispriced_orders clusterAsks (1/2) 10 := by
    norm_num [find_mispriced_orders, cluster_of, price_vol, addVol,
      maxByVol, List.filterMap, List.insertionSort, List.orderedInsert,
      clusterAsks, Mispriced.mk.injEq]
  exact mispriced_output_profit_positive clusterAsks (1/2) 10 hpos
    ⟨1/25, 20, 97/100, 9300/97, 93/100⟩ hmem

end Crypto5m
